import Mathlib

/-!
# Verification of the buttsbot message-transformation core (src/index.js)

Shallow embedding of the pure transformation pipeline of the bot:
tokenizer, target filter, weighted selector, style-preserving substituter,
message gate, command handling for per-channel configuration, and the
per-channel message step (opt-out, rate gate, cooldown).

Modelling conventions:
* JS strings are `List Char`.  All concrete inputs exercised here are ASCII,
  so the Unicode character classes `\p{L}` / `\p{N}` of the source regexes
  are modelled by `Char.isAlpha` / `Char.isDigit` (ASCII letters and digits);
  combining marks `\p{M}` do not occur in ASCII and are dropped from the
  model.  All structural theorems below are insensitive to the exact
  character classification.
* JS numbers that can be `NaN` are modelled as `Option ℚ` / `Option ℤ`
  with `none` standing for `NaN`; `Math.min` / `Math.max` propagate `none`
  and every `NaN` comparison is false, as in JS.
* Randomness (`Math.random()`) is passed in explicitly: the weighted draw
  as a rational `r` (the value of `Math.random() * 100`), the Fisher–Yates
  shuffle as a function `js : ℕ → ℕ` supplying, at loop index `i`, a number
  whose residue mod `i + 1` is the value of `Math.floor(Math.random()*(i+1))`.
-/

namespace Buttsbot

/-- ASCII model of the JS whitespace characters removed by `String.prototype.trim`. -/
def isJsSpace (c : Char) : Bool :=
  c = ' ' || c = '\t' || c = '\n' || c = '\r' || c = '\x0b' || c = '\x0c'

/-- JS `String.prototype.trim`: strip whitespace from both ends. -/
def jsTrim (s : List Char) : List Char :=
  ((s.dropWhile isJsSpace).reverse.dropWhile isJsSpace).reverse

/-- JS `String.prototype.includes(needle)`: substring test (needle occurs
contiguously in hay). -/
def jsIncludes : List Char → List Char → Bool
  | [], needle => needle.isEmpty
  | c :: t, needle => needle.isPrefixOf (c :: t) || jsIncludes t needle

/-- JS `String.prototype.toLowerCase` (ASCII model). -/
def jsToLower (s : List Char) : List Char := s.map Char.toLower

/-- JS `String.prototype.toUpperCase` (ASCII model). -/
def jsToUpper (s : List Char) : List Char := s.map Char.toUpper

/-- The character class `[\p{L}\p{M}\p{N}\-']` used by `tokenize` (and as the
word-core class of `replaceWord`): letters, marks, digits, hyphen, apostrophe. -/
def isWordChar (c : Char) : Bool :=
  c.isAlpha || c.isDigit || c = '-' || c = '\''

/-- Worker for `splitRuns`: `cur` is the current run (reversed), `b` its
class under `p`; a character of the other class closes the run and opens a
new one. -/
def runsGo (p : Char → Bool) (b : Bool) (cur : List Char) : List Char → List (List Char)
  | [] => [cur.reverse]
  | c :: cs =>
      if p c = b then runsGo p b (c :: cur) cs
      else cur.reverse :: runsGo p (p c) [c] cs

/-- The regex of `tokenize` as a run-splitter: split a string into maximal runs of
characters that agree on the predicate `p` (the regex
`([\p{L}\p{M}\p{N}\-']+|[^\p{L}\p{M}\p{N}\-']+)/gu` alternates maximal
word-class and non-word-class runs, covering every character). -/
def splitRuns (p : Char → Bool) : List Char → List (List Char)
  | [] => []
  | c :: cs => runsGo p (p c) [c] cs

/-- Source: `function tokenize(s) { const re = /([\p{L}\p{M}\p{N}\-']+|[^\p{L}\p{M}\p{N}\-']+)/gu; return s.match(re) || [s]; }`
`s.match` is `null` exactly when `s` is empty (the two alternatives cover
every character), in which case `[s]` — a single token holding the whole
input — is returned. -/
def tokenize (s : List Char) : List (List Char) :=
  if s.isEmpty then [s] else splitRuns isWordChar s

/-- Source: `function isWord(token) { return /[\p{L}\p{M}\p{N}]/u.test(token); }` -/
def isWord (token : List Char) : Bool :=
  token.any (fun c => c.isAlpha || c.isDigit)

/-- The regex class `\w` (`[A-Za-z0-9_]`, ASCII model). -/
def isWChar (c : Char) : Bool :=
  c.isAlpha || c.isDigit || c = '_'

/-- The regex class `[\w-]`. -/
def isWHChar (c : Char) : Bool :=
  isWChar c || c = '-'

/-- Segment scanner for `(?:[\w-]+\.)+[\w-]{2,}` after the first dot: `n`
counts the `[\w-]` characters consumed since the last dot.  The final
`[\w-]{2,}` is satisfied as soon as two such characters follow a dot (the
pattern is unanchored on the right, so a prefix match suffices); a dot closing
a nonempty segment starts another label; anything else fails. -/
def labelsAfterDot : List Char → ℕ → Bool
  | [], n => decide (n ≥ 2)
  | c :: cs, n =>
      if isWHChar c then decide (n + 1 ≥ 2) || labelsAfterDot cs (n + 1)
      else if c = '.' && decide (n ≥ 1) then labelsAfterDot cs 0
      else false

/-- First-label scanner for `(?:[\w-]+\.)+[\w-]{2,}`: at least one `[\w-]`
character must be closed by a dot before `labelsAfterDot` takes over. -/
def labelsFirst : List Char → ℕ → Bool
  | [], _ => false
  | c :: cs, n =>
      if isWHChar c then labelsFirst cs (n + 1)
      else if c = '.' && decide (n ≥ 1) then labelsAfterDot cs 0
      else false

/-- Does `(?:[\w-]+\.)+[\w-]{2,}` match a prefix of `s`?  Since `.` is not in
`[\w-]`, each greedy `[\w-]+` is exact maximal munch; after each dot either
the final `[\w-]{2,}` starts (at least two `[\w-]` characters follow) or
another dot-terminated nonempty label does. -/
def labelsMatch (s : List Char) : Bool :=
  labelsFirst s 0

/-- Does the body of `URL_RE` (after the `\b` assertion) match starting at
this position: optional `https?:\/\/` scheme (the group is optional, so both
this and the scheme-less alternative are tried), then `(?:[\w-]+\.)+[\w-]{2,}`.
The trailing path group is optional and cannot make an otherwise-failing
match succeed, so it is irrelevant to `test`.  Assumes the input was already
lowercased (the regex carries the `i` flag). -/
def urlMatchAt (s : List Char) : Bool :=
  labelsMatch s ||
    (if ("http://".toList).isPrefixOf s then labelsMatch (s.drop 7) else false) ||
    (if ("https://".toList).isPrefixOf s then labelsMatch (s.drop 8) else false)

/-- Is position `i` a `\b` word boundary of `s` (exactly one of the adjacent
characters is in `\w`; out of range counts as non-word)? -/
def wordBoundaryAt (s : List Char) (i : ℕ) : Bool :=
  (if i = 0 then false else
    match s[i-1]? with | some c => isWChar c | none => false) ≠
  (match s[i]? with | some c => isWChar c | none => false)

/-- Source: `URL_RE.test(t)` for
`URL_RE = /\b((?:https?:\/\/)?(?:[\w-]+\.)+[\w-]{2,})(?:\/[...])?/i`:
some position of `t` is a word boundary at which the body matches. -/
def urlTest (t : List Char) : Bool :=
  (List.range t.length).any fun i =>
    wordBoundaryAt (jsToLower t) i && urlMatchAt ((jsToLower t).drop i)

/-- JS `t.startsWith(c)` for a single-character argument. -/
def startsWithChar (t : List Char) (c : Char) : Bool :=
  match t with
  | [] => false
  | x :: _ => x = c

/-- Source: `function isGoodTarget(token) { ... }`.

The source declares a single parameter `token` even though its call site in
`buttify` passes `(tokens[i], buttWord)`; the extra argument is silently
ignored and the self-containment check reads the module-level constant
`DEFAULTS.word` instead.  `dword` here is that module constant: the value of
`(process.env.BUTT_WORD || 'butt').toLowerCase()`, fixed at startup. -/
def isGoodTarget (dword : List Char) (token : List Char) : Bool :=
  let t := jsTrim token
  if t.isEmpty then false
  else if jsIncludes (jsToLower t) dword then false
  else if startsWithChar t '@' || startsWithChar t ':' then false
  else if urlTest t then false
  else if t.length ≤ 1 then false
  else if jsIncludes (jsToLower t) ("http".toList) ||
          jsIncludes (jsToLower t) ("www.".toList) then false
  else true

/-- The candidate-collection loop of `buttify`:
`for (i...) if (isWord(tokens[i]) && isGoodTarget(tokens[i], buttWord)) candidates.push(i)`. -/
def eligibleIndices (dword : List Char) (tokens : List (List Char)) : List ℕ :=
  (List.range tokens.length).filter fun i =>
    match tokens[i]? with
    | some t => isWord t && isGoodTarget dword t
    | none => false

/-- One iteration body of `shuffleInPlace`:
`[arr[i], arr[j]] = [arr[j], arr[i]]` (both indices are in range whenever the
source executes this). -/
def listSwap (l : List α) (i j : ℕ) : List α :=
  match l[i]?, l[j]? with
  | some a, some b => (l.set i b).set j a
  | _, _ => l

/-- The loop of `shuffleInPlace`, counting `i` down to `1`; `rand i % (i+1)`
models `Math.floor(Math.random() * (i + 1))`, which lies in `[0, i]`. -/
def shuffleAux (rand : ℕ → ℕ) : List α → ℕ → List α
  | l, 0 => l
  | l, i + 1 => shuffleAux rand (listSwap l (i + 1) (rand (i + 1) % (i + 2))) i

/-- Source: `function shuffleInPlace(arr) { for (let i = arr.length - 1; i > 0; i--) { const j = Math.floor(Math.random() * (i + 1)); [arr[i], arr[j]] = [arr[j], arr[i]]; } }` -/
def shuffleInPlace (l : List α) (rand : ℕ → ℕ) : List α :=
  shuffleAux rand l (l.length - 1)

/-- The weighted draw of `buttify`: `r` is the value of `Math.random() * 100`,
`ncand` the number of candidates (`90% → 1, 5% → 2, 3% → 3, 1% → 4, 1% → all`). -/
def replaceCountOf (r : ℚ) (ncand : ℕ) : ℕ :=
  if r < 90 then 1
  else if r < 95 then 2
  else if r < 98 then 3
  else if r < 99 then 4
  else ncand

/-- JS `Math.min(replaceCount, maxReplacements)` where `maxReplacements` is a JS
number that may be `NaN` (`none`); `Math.min` with `NaN` is `NaN`. -/
def jsMinRc (rc : ℕ) (m : Option ℤ) : Option ℤ :=
  m.map fun z => min (rc : ℤ) z

/-- JS `arr.slice(0, e)` for a possibly-`NaN` end index: `NaN` is converted to
`0` (empty slice); a negative end counts from the end of the array. -/
def jsSliceTo (l : List α) (e : Option ℤ) : List α :=
  match e with
  | none => []
  | some z => if z < 0 then l.take ((l.length : ℤ) + z).toNat else l.take z.toNat

/-- The anchored core/trail decomposition of `replaceWord`:
`token.match(/^([\p{L}\p{M}\p{N}\-']+)([^\p{L}\p{M}\p{N}']*)$/u)`.
The core class equals the tokenizer's word class `isWordChar`; the trail
class excludes letters, marks, digits and apostrophe but allows hyphen.
The greedy core takes the maximal word-class run; backtracking can only move
trailing hyphens into the trail, which never repairs a failed trail (the trail
fails only on a letter/mark/digit/apostrophe, which stays in it), so the match
succeeds — with the maximal core — iff the maximal-core decomposition is
valid. -/
def isTrailChar (c : Char) : Bool :=
  !(c.isAlpha || c.isDigit || c = '\'')

/-- The decomposition itself: `some (core, trail)` iff the anchored pattern of
`replaceWord` matches, in which case `core` is the (maximal, nonempty)
word-class run and `trail` the remainder. -/
def decompose (token : List Char) : Option (List Char × List Char) :=
  let core := token.takeWhile isWordChar
  let trail := token.dropWhile isWordChar
  if core.isEmpty then none
  else if trail.all isTrailChar then some (core, trail)
  else none

/-- JS `word[0].toUpperCase() + word.slice(1)` (for nonempty `word`). -/
def upperFirst (w : List Char) : List Char :=
  match w with
  | [] => []
  | c :: cs => c.toUpper :: cs

/-- Source condition `source[0] && source[0] === source[0].toUpperCase()`: the first character
(if any) equals its own uppercase mapping — true in particular for every
caseless character such as digits, hyphen or apostrophe. -/
def headEqToUpper : List Char → Bool
  | [] => false
  | c :: _ => c.toUpper == c

/-- Source: `function styleLike(source, word)`: all-caps source (with at least one
`A-Z` letter) uppercases the word; else a first character equal to its own
uppercase mapping capitalizes the word's first character; else the word is
lowercased. -/
def styleLike (source w : List Char) : List Char :=
  if jsToUpper source = source && source.any (fun c => 'A' ≤ c && c ≤ 'Z') then
    jsToUpper w
  else if headEqToUpper source then
    upperFirst w
  else
    jsToLower w

/-- Source: `function replaceWord(token, buttWord)`: style-preserving substitution;
if the anchored decomposition fails, the bare substitute word is returned. -/
def replaceWord (token buttWord : List Char) : List Char :=
  match decompose token with
  | none => buttWord
  | some (core, trail) => styleLike core buttWord ++ trail

/-- The replacement plan of `buttify`:
`candidates.slice(0, Math.min(replaceCount, maxReplacements))` after the
shuffle, where `replaceCount` comes from the weighted draw. -/
def buttifyPlan (dword msg buttWord : List Char) (maxReplacements : Option ℤ)
    (js : ℕ → ℕ) (r : ℚ) : List ℕ :=
  let tokens := tokenize msg
  let candidates := eligibleIndices dword tokens
  let shuffled := shuffleInPlace candidates js
  let replaceCount := replaceCountOf r candidates.length
  jsSliceTo shuffled (jsMinRc replaceCount maxReplacements)

/-- Source: `function buttify(message, buttWord, maxReplacements)`: `none` models the
`null` returned when there are no candidates; otherwise the tokens selected
by the plan are substituted, the tokens are re-joined and the result trimmed. -/
def buttify (dword msg buttWord : List Char) (maxReplacements : Option ℤ)
    (js : ℕ → ℕ) (r : ℚ) : Option (List Char) :=
  let tokens := tokenize msg
  let candidates := eligibleIndices dword tokens
  if candidates.isEmpty then none
  else
    let toReplace := buttifyPlan dword msg buttWord maxReplacements js r
    some (jsTrim (List.flatten (tokens.enum.map fun p =>
      if toReplace.contains p.1 then replaceWord p.2 buttWord else p.2)))

/-- Source: `function shouldSkip(msg)`: the message gate. -/
def shouldSkip (msg : List Char) : Bool :=
  if msg.isEmpty || (jsTrim msg).length < 3 then true
  else if startsWithChar (jsTrim msg) '!' then true
  else if jsIncludes msg ("http://".toList) || jsIncludes msg ("https://".toList) ||
          jsIncludes msg ("www.".toList) then true
  else if (jsTrim msg).all (fun c => !c.isAlpha) then true
  else false

/-- Per-channel mutable state, as created at startup
(`{ ...DEFAULTS, optOut: new Set(), cooldownUntil: 0 }`).  `rate` and
`maxReplacements` are JS numbers that can become `NaN` (`none`); the opt-out
`Set` is modelled as a duplicate-free list. -/
structure ChannelConfig where
  word : List Char
  rate : Option ℚ
  maxReplacements : Option ℤ
  enabled : Bool
  optOut : List String
  cooldownUntil : ℤ
deriving DecidableEq

/-- JS `Set.prototype.add`. -/
def setAdd (s : List String) (u : String) : List String :=
  if u ∈ s then s else s ++ [u]

/-- JS `Set.prototype.delete`. -/
def setDelete (s : List String) (u : String) : List String :=
  s.filter (fun x => x ≠ u)

/-- The `!ignoreme` / `!buttignore` branch of `handleCommand`
(`cfg.optOut.add(user)`; the chat acknowledgment is a side effect with no
state impact and is omitted). -/
def cmdIgnore (cfg : ChannelConfig) (user : String) : ChannelConfig :=
  { cfg with optOut := setAdd cfg.optOut user }

/-- The `!unignoreme` / `!buttallow` branch of `handleCommand`
(`cfg.optOut.delete(user)`). -/
def cmdAllow (cfg : ChannelConfig) (user : String) : ChannelConfig :=
  { cfg with optOut := setDelete cfg.optOut user }

/-- Accumulated value of a digit run. -/
def digitsVal (ds : List Char) : ℕ :=
  ds.foldl (fun a c => a * 10 + (c.toNat - '0'.toNat)) 0

/-- JS `parseInt(s, 10)` on the command argument: leading whitespace, optional
sign, then leading decimal digits; `NaN` (`none`) when no digit is found.
(Other `parseInt` features are not exercised by the embedded commands.) -/
def jsParseInt (s : List Char) : Option ℤ :=
  let t := s.dropWhile isJsSpace
  let sign : ℤ := match t with | '-' :: _ => -1 | _ => 1
  let t' := match t with | '-' :: r => r | '+' :: r => r | _ => t
  let ds := t'.takeWhile Char.isDigit
  if ds.isEmpty then none else some (sign * (digitsVal ds : ℤ))

/-- JS `parseFloat(s)` on the command argument: leading whitespace, optional
sign, decimal digits with an optional fractional part; `NaN` (`none`) when no
digit is found.  (Exponents and `Infinity` are not modelled; no claim
exercises them.) -/
def jsParseFloat (s : List Char) : Option ℚ :=
  let t := s.dropWhile isJsSpace
  let sign : ℚ := match t with | '-' :: _ => -1 | _ => 1
  let t' := match t with | '-' :: r => r | '+' :: r => r | _ => t
  let ds := t'.takeWhile Char.isDigit
  let rest := t'.dropWhile Char.isDigit
  let fs := match rest with | '.' :: r => r.takeWhile Char.isDigit | _ => []
  if ds.isEmpty && fs.isEmpty then none
  else some (sign * ((digitsVal ds : ℚ) + (digitsVal fs : ℚ) / (10 : ℚ) ^ fs.length))

/-- Source: `function clamp(n, a, b) { return Math.max(a, Math.min(b, n)); }` on a JS
number that may be `NaN`: both `Math.min` and `Math.max` return `NaN` when an
argument is `NaN`. -/
def clamp (n : Option ℚ) (a b : ℚ) : Option ℚ :=
  n.map fun q => max a (min b q)

/-- Source `clamp` at integer bounds for the `parseInt`-produced value. -/
def clampInt (n : Option ℤ) (a b : ℤ) : Option ℤ :=
  n.map fun z => max a (min b z)

/-- The `!butt rate` branch of `handleCommand` (moderator path):
`const v = clamp(parseFloat(rest[1]), 0, 1); cfg.rate = isFinite(v) ? v : cfg.rate;`. -/
def cmdRate (cfg : ChannelConfig) (arg : List Char) : ChannelConfig :=
  let v := clamp (jsParseFloat arg) 0 1
  { cfg with rate := match v with | some q => some q | none => cfg.rate }

/-- The `!butt max` branch of `handleCommand` (moderator path):
`const m = clamp(parseInt(rest[1], 10), 1, 5); cfg.maxReplacements = m;` —
note the absence of the `isFinite` guard that the rate branch has. -/
def cmdMax (cfg : ChannelConfig) (arg : List Char) : ChannelConfig :=
  { cfg with maxReplacements := clampInt (jsParseInt arg) 1 5 }

/-- JS `Math.random() > cfg.rate` — false when the rate is `NaN`, as every
comparison against `NaN` is false in JS. -/
def randAboveRate (p : ℚ) (rate : Option ℚ) : Bool :=
  match rate with
  | some q => decide (q < p)
  | none => false

/-- The transformation path of `onMessage` (the non-command branch, lines
58–71 of the source), for one channel: returns the message sent (if any)
and the updated channel state.  `dword` is the module-level `DEFAULTS.word`;
`p` the value of `Math.random()` drawn for the rate gate; `now` the value of
`Date.now()`; `js` and `r` the randomness consumed by `buttify`. -/
def onMessageStep (dword : List Char) (cfg : ChannelConfig) (user : String)
    (msg : List Char) (p : ℚ) (now : ℤ) (js : ℕ → ℕ) (r : ℚ) :
    Option (List Char) × ChannelConfig :=
  if !cfg.enabled then (none, cfg)
  else if user ∈ cfg.optOut then (none, cfg)
  else if randAboveRate p cfg.rate then (none, cfg)
  else if now < cfg.cooldownUntil then (none, cfg)
  else if shouldSkip msg then (none, cfg)
  else
    match buttify dword msg cfg.word cfg.maxReplacements js r with
    | none => (none, cfg)
    | some out =>
        if out = msg then (none, cfg)
        else (some out, { cfg with cooldownUntil := now + 1500 })

/-- The casing rule as worded by the specification (§4.4 / claim C4), with
"first character is uppercase" read as: the first character is an uppercase
letter.  Defined only for comparison against the code's `styleLike`. -/
def styleByClaim (core w : List Char) : List Char :=
  if core.all (fun c => !c.isLower) && core.any (fun c => c.isUpper || c.isLower) then
    jsToUpper w
  else if (match core with | c :: _ => c.isUpper | [] => false) then
    upperFirst w
  else
    jsToLower w

/-- The casing rule as the claim must be amended to match the code: branch 2
fires when the first character of the core *equals its own uppercase mapping*
(which includes every caseless character, e.g. digits, hyphen, apostrophe),
not only when it is an uppercase letter.  Branches 1 and 3 are unchanged from
the claim's wording. -/
def styleByClaimAmended (core w : List Char) : List Char :=
  if core.all (fun c => !c.isLower) && core.any (fun c => c.isUpper || c.isLower) then
    jsToUpper w
  else if headEqToUpper core then
    upperFirst w
  else
    jsToLower w

/-- The number of token positions at which `buttify`'s final map takes the
replacement branch (`toReplace.includes(idx)`), i.e. the number of tokens
actually substituted in the output. -/
def substitutedCount (dword msg buttWord : List Char) (m : Option ℤ)
    (js : ℕ → ℕ) (r : ℚ) : ℕ :=
  ((List.range (tokenize msg).length).filter
    (fun i => (buttifyPlan dword msg buttWord m js r).contains i)).length

/-- A reachable per-channel state: default word `"butt"`, rate `1`
(e.g. `BUTT_RATE=1` at startup, or `!butt rate 1`), default
`maxReplacements = 2`, enabled, empty opt-out set, cooldown expired. -/
def defaultCfg : ChannelConfig :=
  { word := "butt".toList, rate := some 1, maxReplacements := some 2,
    enabled := true, optOut := [], cooldownUntil := 0 }

/-- State `defaultCfg` right after a transformation-triggered send at time `0`. -/
def sentCfg : ChannelConfig :=
  { defaultCfg with cooldownUntil := 1500 }

/-! ## Theorems -/

theorem flatten_runsGo (p : Char → Bool) (l : List Char) :
    ∀ (b : Bool) (cur : List Char), (runsGo p b cur l).flatten = cur.reverse ++ l := by
  induction l with
  | nil => intro b cur; simp [runsGo]
  | cons c cs ih =>
      intro b cur
      by_cases h : p c = b <;> simp [runsGo, h, ih]

theorem flatten_splitRuns (p : Char → Bool) (s : List Char) :
    (splitRuns p s).flatten = s := by
  cases s with
  | nil => rfl
  | cons c cs => rw [splitRuns, flatten_runsGo]; rfl

/-- C2. Losslessness of tokenization: concatenating the tokens of any
message reproduces the message exactly, and the degenerate (empty) input
yields a single token holding the whole input unchanged. -/
theorem tokenize_lossless :
    (∀ s : List Char, (tokenize s).flatten = s) ∧ tokenize [] = [[]] := by
  constructor
  · intro s
    by_cases h : s.isEmpty
    · simp [tokenize, h, List.isEmpty_iff.mp h]
    · simp [tokenize, h, flatten_splitRuns]
  · rfl

/-- C7. The message gate: `shouldSkip` is true exactly when the trimmed
message is shorter than 3 characters, or starts with the command marker `!`,
or the message contains one of the literal substrings `http://`, `https://`,
`www.`, or the trimmed message contains no ASCII letter; and the four examples
from the specification hold. -/
theorem shouldSkip_gate :
    (∀ msg : List Char,
      shouldSkip msg =
        (decide ((jsTrim msg).length < 3) || startsWithChar (jsTrim msg) '!' ||
         jsIncludes msg ("http://".toList) || jsIncludes msg ("https://".toList) ||
         jsIncludes msg ("www.".toList) ||
         (jsTrim msg).all (fun c => !c.isAlpha))) ∧
    shouldSkip "ok".toList = true ∧
    shouldSkip "check https://x.io".toList = true ∧
    shouldSkip "!cmd".toList = true ∧
    shouldSkip "1234 !! ***".toList = true := by
  refine ⟨?_, by decide, by decide, by decide, by decide⟩
  intro msg
  by_cases hm : msg.isEmpty
  · have h0 : msg = [] := List.isEmpty_iff.mp hm
    subst h0; decide
  · simp only [shouldSkip, hm, Bool.false_or]
    split_ifs with h1 h2 h3 h4 <;> simp_all <;> tauto

/-- C5 counterexample. The message `"@ab"` does **not** have zero
eligible targets: the tokenizer splits the `@` into its own separator token,
so the word token `"ab"` never starts with `@` and passes the filter; with the
channel at its default configuration the pipeline actually transforms `"@ab"`
into `"@butt"` and sends it. -/
theorem atMention_has_target :
    eligibleIndices "butt".toList (tokenize "@ab".toList) = [1] ∧
    (onMessageStep "butt".toList defaultCfg "alice" "@ab".toList
      0 0 (fun _ => 0) 0).1 = some ("@butt".toList) := by
  constructor
  · decide
  · decide

/-- C5 amended. What does hold: any message with zero eligible targets
yields "no transformation" (`buttify` returns `null`).  The `"@ab"` example of
the claim is wrong — it has one eligible target — but the general
zero-target short-circuit is real. -/
theorem no_targets_no_transformation
    (dword msg w : List Char) (m : Option ℤ) (js : ℕ → ℕ) (r : ℚ)
    (h : eligibleIndices dword (tokenize msg) = []) :
    buttify dword msg w m js r = none := by
  unfold buttify
  simp [h]

theorem no_targets_no_transformation_witness :
    eligibleIndices "butt".toList (tokenize "a b".toList) = [] ∧
    buttify "butt".toList "a b".toList "butt".toList (some 2) (fun _ => 0) 0 = none :=
  ⟨by decide,
   no_targets_no_transformation "butt".toList "a b".toList "butt".toList
     (some 2) (fun _ => 0) 0 (by decide)⟩

/-- C1 code bug. With the default word the claim's example holds
(`"butter"` is ineligible), but `isGoodTarget` filters against the
module-level `DEFAULTS.word` (`"butt"`), not against the channel's current
substitute word: with the channel word changed to `"boat"`, the token
`"boater"` — whose lowercase form contains `"boat"` — still passes the
filter, is selected, and is replaced, producing `"the boat"` from
`"the boater"`; the current word `"boat"` itself also stays eligible. -/
theorem filter_ignores_configured_word :
    isGoodTarget "butt".toList "butter".toList = false ∧
    jsIncludes (jsToLower "boater".toList) ("boat".toList) = true ∧
    isGoodTarget "butt".toList "boater".toList = true ∧
    isGoodTarget "butt".toList "boat".toList = true ∧
    eligibleIndices "butt".toList (tokenize "the boater".toList) = [0, 2] ∧
    buttify "butt".toList "the boater".toList "boat".toList (some 2)
      (fun _ => 0) 0 = some ("the boat".toList) := by
  refine ⟨by decide, by decide, by decide, by decide, by decide, by decide⟩

/-- C6 code bug. A non-numeric argument to `!butt rate` leaves the rate
unchanged (the `isFinite` guard), but a non-numeric argument to `!butt max`
**sets `maxReplacements` to `NaN`** — the assignment `cfg.maxReplacements = m`
has no such guard — instead of leaving the previous value `2`. -/
theorem max_command_nan :
    (cmdRate defaultCfg "abc".toList).rate = defaultCfg.rate ∧
    defaultCfg.maxReplacements = some 2 ∧
    (cmdMax defaultCfg "abc".toList).maxReplacements = none := by
  refine ⟨by decide, by decide, by decide⟩

/-- C8. Opt-out round trip: after `!buttignore` from user `u`, every
message from `u` on that channel (whatever its content, the draw, or the
clock) produces no transformation send; and `!buttallow` afterwards removes
`u` from the opt-out set again, restoring eligibility. -/
theorem optout_roundtrip :
    ∀ (dword : List Char) (cfg : ChannelConfig) (u : String) (msg : List Char)
      (p : ℚ) (now : ℤ) (js : ℕ → ℕ) (r : ℚ),
      (onMessageStep dword (cmdIgnore cfg u) u msg p now js r).1 = none ∧
      u ∉ (cmdAllow (cmdIgnore cfg u) u).optOut := by
  intro dword cfg u msg p now js r
  constructor
  · have hmem : u ∈ (cmdIgnore cfg u).optOut := by
      simp only [cmdIgnore, setAdd]
      by_cases h : u ∈ cfg.optOut
      · simpa [h] using h
      · simp [h]
    unfold onMessageStep
    by_cases he : (cmdIgnore cfg u).enabled <;> simp [he, hmem]
  · simp [cmdAllow, cmdIgnore, setDelete]

/-- C9. Cooldown: a transformation-triggered send at time `t1` sets the
channel's cooldown to `t1 + 1500`, so any further message processed in that
channel strictly before `t1 + 1500` — whoever sends it and whatever the
random draws — produces no transformation send. -/
theorem cooldown_blocks
    (dword : List Char) (cfg : ChannelConfig) (u1 u2 : String)
    (m1 m2 : List Char) (p1 p2 : ℚ) (t1 t2 : ℤ) (js1 js2 : ℕ → ℕ) (r1 r2 : ℚ)
    (out : List Char) (cfg' : ChannelConfig)
    (hsend : onMessageStep dword cfg u1 m1 p1 t1 js1 r1 = (some out, cfg'))
    (h12 : t2 < t1 + 1500) :
    (onMessageStep dword cfg' u2 m2 p2 t2 js2 r2).1 = none := by
  have hcd : cfg'.cooldownUntil = t1 + 1500 := by
    unfold onMessageStep at hsend
    repeat' split at hsend
    all_goals rw [Prod.mk.injEq] at hsend
    all_goals
      first
        | exact Option.noConfusion hsend.1
        | rw [← hsend.2]
  unfold onMessageStep
  split_ifs with e1 e2 e3 e4 e5 <;>
    first
      | rfl
      | (exfalso; rw [hcd] at e4; omega)

theorem cooldown_blocks_witness :
    onMessageStep "butt".toList defaultCfg "alice" "hello there".toList
        0 0 (fun _ => 0) 0 = (some ("hello butt".toList), sentCfg) ∧
    (100 : ℤ) < 0 + 1500 ∧
    (onMessageStep "butt".toList sentCfg "bob" "nice boat".toList
        0 100 (fun _ => 0) 0).1 = none :=
  ⟨by decide, by decide,
    cooldown_blocks "butt".toList defaultCfg "alice" "bob"
      "hello there".toList "nice boat".toList 0 0 0 100
      (fun _ => 0) (fun _ => 0) 0 0 ("hello butt".toList) sentCfg
      (by decide) (by decide)⟩

theorem toNat_ofNat_valid (n : ℕ) (h : n.isValidChar) : (Char.ofNat n).toNat = n := by
  rw [Char.ofNat, dif_pos h]
  simp [Char.ofNatAux, Char.toNat, UInt32.toNat]

theorem isLower_iff_toNat (c : Char) :
    c.isLower = true ↔ (97 ≤ c.toNat ∧ c.toNat ≤ 122) := by
  simp [Char.isLower, UInt32.le_def, BitVec.le_def, Char.toNat, UInt32.toNat]

/-- A character is fixed by `toUpperCase` exactly when it is not a lowercase
ASCII letter. -/
theorem toUpper_eq_self_iff (c : Char) : (c.toUpper = c) ↔ (c.isLower = false) := by
  rw [Char.toUpper]
  by_cases h : 97 ≤ Char.toNat c ∧ Char.toNat c ≤ 122
  · rw [if_pos h]
    have hval : (Char.toNat c - 32).isValidChar := by
      left
      omega
    have hne : Char.ofNat (Char.toNat c - 32) ≠ c := by
      intro he
      have h2 := toNat_ofNat_valid (Char.toNat c - 32) hval
      rw [he] at h2
      omega
    simp only [hne, false_iff, Bool.not_eq_false]
    exact (isLower_iff_toNat c).mpr h
  · rw [if_neg h]
    simp only [true_iff]
    rcases Bool.eq_false_or_eq_true c.isLower with ht | hf
    · exact absurd ((isLower_iff_toNat c).mp ht) h
    · exact hf

/-- The `/[A-Z]/` test of `styleLike` coincides with `Char.isUpper`. -/
theorem az_test_eq_isUpper (c : Char) :
    (decide ('A' ≤ c) && decide (c ≤ 'Z')) = c.isUpper := by
  simp [Char.isUpper, Char.le_def, UInt32.le_def, BitVec.le_def]

theorem jsToUpper_fixed_iff (l : List Char) :
    jsToUpper l = l ↔ ∀ c ∈ l, c.isLower = false := by
  unfold jsToUpper
  induction l with
  | nil => simp
  | cons c cs ih =>
      simp only [List.map_cons, List.cons.injEq, List.mem_cons]
      constructor
      · rintro ⟨h1, h2⟩ x hx
        rcases hx with rfl | hx
        · exact (toUpper_eq_self_iff x).mp h1
        · exact (ih.mp h2) x hx
      · intro h
        exact ⟨(toUpper_eq_self_iff c).mpr (h c (Or.inl rfl)),
          ih.mpr fun x hx => h x (Or.inr hx)⟩

/-- The code's `styleLike` computes exactly the amended claim styling on any
core. -/
theorem styleLike_eq_amended (core w : List Char) :
    styleLike core w = styleByClaimAmended core w := by
  unfold styleLike styleByClaimAmended
  by_cases h1 : jsToUpper core = core
  · have hnl : ∀ c ∈ core, c.isLower = false := (jsToUpper_fixed_iff core).mp h1
    have hall : core.all (fun c => !c.isLower) = true := by
      rw [List.all_eq_true]
      intro c hc
      simp [hnl c hc]
    have hany : core.any (fun c => decide ('A' ≤ c) && decide (c ≤ 'Z')) =
        core.any (fun c => c.isUpper || c.isLower) := by
      rcases Bool.eq_false_or_eq_true (core.any (fun c => c.isUpper || c.isLower))
        with ht | hf
      · rw [ht]
        rw [List.any_eq_true] at ht ⊢
        obtain ⟨c, hc, hcased⟩ := ht
        refine ⟨c, hc, ?_⟩
        rw [az_test_eq_isUpper]
        rw [Bool.or_eq_true] at hcased
        rcases hcased with hu | hl
        · exact hu
        · exact absurd hl (by simp [hnl c hc])
      · rw [hf]
        rw [List.any_eq_false] at hf ⊢
        intro c hc
        have := hf c hc
        rw [az_test_eq_isUpper]
        intro hu
        exact this (by simp [hu])
    rw [h1, hall, hany]
    simp
  · have hall : core.all (fun c => !c.isLower) = false := by
      by_contra hc
      rw [Bool.not_eq_false, List.all_eq_true] at hc
      exact h1 ((jsToUpper_fixed_iff core).mpr fun c hm => by
        simpa using hc c hm)
    simp [h1, hall]

/-- C4 counterexample. At token `"4x"` (word-core `"4x"`, empty trail)
the claim's styling rules — which predict the fully lowercased substitute,
since `"4x"` is not all-uppercase and `'4'` is not an uppercase letter — do
not match the code: `styleLike`'s second branch tests
`source[0] === source[0].toUpperCase()`, which is true for the caseless `'4'`,
so the code returns `"Butt"`, not `"butt"`. -/
theorem style_claim_cex :
    decompose "4x".toList = some ("4x".toList, []) ∧
    styleByClaim "4x".toList "butt".toList = "butt".toList ∧
    replaceWord "4x".toList "butt".toList = "Butt".toList := by
  refine ⟨by decide, by decide, by decide⟩

/-- C4 amended. For every token whose anchored decomposition succeeds
(nonempty word-core plus trail) and every nonempty substitute word,
substitution applies, in order: all-uppercase core containing a cased letter →
fully uppercased substitute; else first core character *equal to its own
uppercase mapping* → substitute with first character uppercased, rest
unchanged; else fully lowercased substitute; with the trail reappended
unchanged. -/
theorem substitute_style (token w core trail : List Char) (hw : w ≠ [])
    (hd : decompose token = some (core, trail)) :
    replaceWord token w = styleByClaimAmended core w ++ trail ∧ core ≠ [] := by
  constructor
  · unfold replaceWord
    rw [hd]
    show styleLike core w ++ trail = styleByClaimAmended core w ++ trail
    rw [styleLike_eq_amended]
  · unfold decompose at hd
    by_cases h1 : (token.takeWhile isWordChar).isEmpty
    · rw [if_pos h1] at hd
      exact absurd hd (by simp)
    · rw [if_neg h1] at hd
      by_cases h2 : (token.dropWhile isWordChar).all isTrailChar
      · rw [if_pos h2] at hd
        have hc := (Option.some.injEq _ _ ▸ hd)
        have hcore : core = token.takeWhile isWordChar := by
          have := (Prod.mk.injEq .. ▸ congrArg id (Option.some.inj hd)).1
          exact this.symm
        rw [hcore]
        intro hnil
        rw [hnil] at h1
        exact h1 rfl
      · rw [if_neg h2] at hd
        exact absurd hd (by simp)

theorem substitute_style_witness :
    ("butt".toList ≠ ([] : List Char)) ∧
    decompose "Boat!".toList = some ("Boat".toList, "!".toList) ∧
    replaceWord "Boat!".toList "butt".toList = "Butt!".toList ∧
    replaceWord "BOAT".toList "butt".toList = "BUTT".toList ∧
    replaceWord "boat,".toList "butt".toList = "butt,".toList :=
  ⟨by decide, by decide,
    by
      have h := substitute_style "Boat!".toList "butt".toList "Boat".toList
        "!".toList (by decide) (by decide)
      rw [h.1]
      decide,
    by decide, by decide⟩

/-- Every run emitted by `runsGo` is nonempty and homogeneous for `p`,
provided the accumulated current run is. -/
theorem runsGo_homogeneous (p : Char → Bool) (l : List Char) :
    ∀ (b : Bool) (cur : List Char), cur ≠ [] → (∀ c ∈ cur, p c = b) →
      ∀ t ∈ runsGo p b cur l, t ≠ [] ∧ ∃ bb, ∀ c ∈ t, p c = bb := by
  induction l with
  | nil =>
      intro b cur hne hcur t ht
      rw [runsGo, List.mem_singleton] at ht
      subst ht
      refine ⟨by simpa using hne, b, ?_⟩
      intro c hc
      exact hcur c (List.mem_reverse.mp hc)
  | cons c cs ih =>
      intro b cur hne hcur t ht
      rw [runsGo] at ht
      by_cases h : p c = b
      · rw [if_pos h] at ht
        exact ih b (c :: cur) (by simp) (by
          intro x hx
          rcases List.mem_cons.mp hx with rfl | hx
          · exact h
          · exact hcur x hx) t ht
      · rw [if_neg h] at ht
        rcases List.mem_cons.mp ht with rfl | ht
        · refine ⟨by simpa using hne, b, ?_⟩
          intro x hx
          exact hcur x (List.mem_reverse.mp hx)
        · exact ih (p c) [c] (by simp) (by simp) t ht

/-- Every token of `splitRuns` is nonempty and homogeneous for `p`. -/
theorem splitRuns_homogeneous (p : Char → Bool) (s : List Char) :
    ∀ t ∈ splitRuns p s, t ≠ [] ∧ ∃ bb, ∀ c ∈ t, p c = bb := by
  cases s with
  | nil => intro t ht; exact absurd ht (by simp [splitRuns])
  | cons c cs =>
      intro t ht
      exact runsGo_homogeneous p cs (p c) [c] (by simp) (by simp) t ht

/-- C10. Every word-like token produced by `tokenize` (one containing a
letter or digit) satisfies the anchored core/trail decomposition of
`replaceWord`, so the bare-substitute-word fallback branch is unreachable for
any token the pipeline selects for substitution. -/
theorem wordlike_decomposes (s t : List Char) (hmem : t ∈ tokenize s)
    (hw : isWord t = true) : (decompose t).isSome = true := by
  have ht : t ≠ [] ∧ ∃ bb, ∀ c ∈ t, isWordChar c = bb := by
    unfold tokenize at hmem
    by_cases hs : s.isEmpty
    · rw [if_pos hs, List.mem_singleton] at hmem
      subst hmem
      rw [List.isEmpty_iff.mp hs] at hw
      exact absurd hw (by simp [isWord])
    · rw [if_neg hs] at hmem
      exact splitRuns_homogeneous isWordChar s t hmem
  obtain ⟨hne, bb, hbb⟩ := ht
  obtain ⟨c, hc, hcw⟩ := List.any_eq_true.mp hw
  have hcbb : bb = true := by
    rw [← hbb c hc]
    rcases Bool.or_eq_true .. |>.mp hcw with h | h <;> simp [isWordChar, h]
  have hall : ∀ c ∈ t, isWordChar c = true := fun x hx => hcbb ▸ hbb x hx
  unfold decompose
  have htake : t.takeWhile isWordChar = t := List.takeWhile_eq_self_iff.mpr hall
  have hdrop : t.dropWhile isWordChar = [] := List.dropWhile_eq_nil_iff.mpr hall
  rw [htake, hdrop]
  simp [List.isEmpty_iff, hne]

theorem wordlike_decomposes_witness :
    ("hi".toList ∈ tokenize "hi!".toList) ∧ isWord "hi".toList = true ∧
    (decompose "hi".toList).isSome = true :=
  ⟨by decide, by decide,
    wordlike_decomposes "hi!".toList "hi".toList (by decide) (by decide)⟩

/-- Replacing position `m` (holding `v`) with `w` and carrying `v` to the
front permutes the list with `w` placed at the front instead. -/
theorem set_cons_perm : ∀ (xs : List α) (m : ℕ) (v w : α),
    xs[m]? = some v → (v :: xs.set m w).Perm (w :: xs)
  | [], m, v, w, h => by simp at h
  | y :: t, 0, v, w, h => by
      have hv : y = v := by simpa using h
      subst hv
      simpa using List.Perm.swap w y t
  | y :: t, m + 1, v, w, h => by
      have h' : t[m]? = some v := by simpa using h
      have e : (y :: t).set (m + 1) w = y :: t.set m w := by simp
      rw [e]
      exact (List.Perm.swap y v _).trans
        (((set_cons_perm t m v w h').cons y).trans (List.Perm.swap w y t))

theorem set_set_perm : ∀ (l : List α) (i j : ℕ) (a b : α),
    l[i]? = some a → l[j]? = some b → ((l.set i b).set j a).Perm l
  | [], _, _, _, _, hi, _ => by simp at hi
  | x :: t, 0, 0, a, b, hi, hj => by
      have ha : x = a := by simpa using hi
      subst ha
      simp
  | x :: t, 0, j + 1, a, b, hi, hj => by
      have ha : x = a := by simpa using hi
      have hj' : t[j]? = some b := by simpa using hj
      subst ha
      simpa using set_cons_perm t j b x hj'
  | x :: t, i + 1, 0, a, b, hi, hj => by
      have hb : x = b := by simpa using hj
      have hi' : t[i]? = some a := by simpa using hi
      subst hb
      simpa using set_cons_perm t i a x hi'
  | x :: t, i + 1, j + 1, a, b, hi, hj => by
      have hi' : t[i]? = some a := by simpa using hi
      have hj' : t[j]? = some b := by simpa using hj
      have : (x :: t).set (i + 1) b = x :: t.set i b := by simp
      rw [this]
      simpa using (set_set_perm t i j a b hi' hj').cons x

/-- One swap of the Fisher–Yates loop is a permutation. -/
theorem listSwap_perm (l : List α) (i j : ℕ) : (listSwap l i j).Perm l := by
  cases hi : l[i]? with
  | none => simp [listSwap, hi]
  | some a =>
      cases hj : l[j]? with
      | none => simp [listSwap, hi, hj]
      | some b =>
          simpa [listSwap, hi, hj] using set_set_perm l i j a b hi hj

theorem shuffleAux_perm (rand : ℕ → ℕ) :
    ∀ (i : ℕ) (l : List α), (shuffleAux rand l i).Perm l
  | 0, l => List.Perm.refl l
  | i + 1, l =>
      (shuffleAux_perm rand i _).trans (listSwap_perm l (i + 1) (rand (i + 1) % (i + 2)))

/-- The source's shuffle permutes its input, whatever the random draws. -/
theorem shuffleInPlace_perm (l : List α) (rand : ℕ → ℕ) :
    (shuffleInPlace l rand).Perm l :=
  shuffleAux_perm rand (l.length - 1) l

theorem eligibleIndices_nodup (dword : List Char) (tokens : List (List Char)) :
    (eligibleIndices dword tokens).Nodup :=
  (List.nodup_range _).filter _

theorem eligibleIndices_lt (dword : List Char) (tokens : List (List Char)) :
    ∀ i ∈ eligibleIndices dword tokens, i < tokens.length := by
  intro i hi
  exact List.mem_range.mp (List.mem_filter.mp hi).1

theorem toNat_min_cast (rc : ℕ) (mz : ℤ) (h : 0 ≤ mz) :
    (min (rc : ℤ) mz).toNat = min rc mz.toNat := by
  rcases le_total (rc : ℤ) mz with h1 | h1
  · rw [min_eq_left h1, Int.toNat_ofNat, min_eq_left (by omega)]
  · rw [min_eq_right h1, min_eq_right (by omega)]

theorem jsMinRc_some (rc : ℕ) (z : ℤ) : jsMinRc rc (some z) = some (min (rc : ℤ) z) :=
  rfl

theorem jsSliceTo_some_nonneg (l : List α) (z : ℤ) (h : 0 ≤ z) :
    jsSliceTo l (some z) = l.take z.toNat := by
  show (if z < 0 then l.take ((l.length : ℤ) + z).toNat else l.take z.toNat) =
    l.take z.toNat
  rw [if_neg (by omega)]

/-- Counting, over all token positions, those retained by a duplicate-free,
in-range plan yields exactly the plan's size. -/
theorem count_mem_range_filter (T : ℕ) (l : List ℕ) (hn : l.Nodup)
    (hb : ∀ x ∈ l, x < T) :
    ((List.range T).filter (fun i => l.contains i)).length = l.length := by
  have hperm : ((List.range T).filter (fun i => l.contains i)).Perm l := by
    rw [List.perm_ext_iff_of_nodup ((List.nodup_range T).filter _) hn]
    intro a
    simp only [List.mem_filter, List.mem_range, List.contains_eq_any_beq,
      List.any_beq]
    constructor
    · rintro ⟨_, h2⟩
      exact h2
    · intro h2
      exact ⟨hb a h2, h2⟩
  exact hperm.length_eq

/-- C3. For every message, every draw outcome and a configured
`maxReplacements` `mz ∈ [1, 5]`, the number of tokens substituted by
`buttify` equals `min(desired, eligible, maxReplacements)`, where `desired`
is the weighted draw's count and `eligible` the number of eligible targets;
in particular with `maxReplacements = 1` at most one token is substituted. -/
theorem buttify_replacement_count (dword msg w : List Char) (mz : ℤ)
    (js : ℕ → ℕ) (r : ℚ) (hm1 : 1 ≤ mz) (hm5 : mz ≤ 5) :
    substitutedCount dword msg w (some mz) js r =
      min (replaceCountOf r (eligibleIndices dword (tokenize msg)).length)
        (min (eligibleIndices dword (tokenize msg)).length mz.toNat) := by
  unfold substitutedCount
  have hplan : buttifyPlan dword msg w (some mz) js r =
      (shuffleInPlace (eligibleIndices dword (tokenize msg)) js).take
        (min (replaceCountOf r (eligibleIndices dword (tokenize msg)).length)
          mz.toNat) := by
    have hmin : (0 : ℤ) ≤
        min ((replaceCountOf r (eligibleIndices dword (tokenize msg)).length : ℕ) : ℤ) mz :=
      le_min (Int.natCast_nonneg _) (by omega)
    unfold buttifyPlan
    dsimp only
    rw [jsMinRc_some, jsSliceTo_some_nonneg _ _ hmin,
      toNat_min_cast _ _ (by omega)]
  have hshuf := shuffleInPlace_perm (eligibleIndices dword (tokenize msg)) js
  have hnodup : (buttifyPlan dword msg w (some mz) js r).Nodup := by
    rw [hplan]
    exact (List.take_sublist _ _).nodup
      (hshuf.nodup_iff.mpr (eligibleIndices_nodup dword (tokenize msg)))
  have hbound : ∀ x ∈ buttifyPlan dword msg w (some mz) js r,
      x < (tokenize msg).length := by
    intro x hx
    rw [hplan] at hx
    exact eligibleIndices_lt dword (tokenize msg) x
      (hshuf.mem_iff.mp ((List.take_sublist _ _).subset hx))
  rw [count_mem_range_filter _ _ hnodup hbound, hplan, List.length_take,
    hshuf.length_eq, min_assoc, min_comm (mz.toNat)]

theorem buttify_replacement_count_witness :
    (1 : ℤ) ≤ 1 ∧ (1 : ℤ) ≤ 5 ∧
    substitutedCount "butt".toList "hello there".toList "butt".toList (some 1)
      (fun _ => 0) 0 = 1 ∧
    substitutedCount "butt".toList "hello there".toList "butt".toList (some 1)
        (fun _ => 0) 0 =
      min (replaceCountOf 0
            (eligibleIndices "butt".toList (tokenize "hello there".toList)).length)
        (min (eligibleIndices "butt".toList (tokenize "hello there".toList)).length
          (1 : ℤ).toNat) :=
  ⟨by decide, by decide, by decide,
    buttify_replacement_count "butt".toList "hello there".toList "butt".toList 1
      (fun _ => 0) 0 (by decide) (by decide)⟩

end Buttsbot
